import Mathlib

/-!
# Verification of the Multi-IC Tester SRAM core

A shallow embedding of the SRAM-testing core of the Multi-IC Tester
firmware (`src/strategies/SRAMStrategy.cpp`, `src/main.cpp`,
`src/utils/ModeManager.cpp`), together with proofs about the embedded
definitions.

Machine integers are modelled as `Nat` with explicit truncation where the
AVR registers are 8-bit (`byte`) and where C `uint16_t` arithmetic can
wrap (`sub16`).  The ATmega2560 I/O registers touched by the strategy
(`DDRA/C/L/G`, `PORTA/C/L/G`, `PINL`) are fields of a `Machine` record.
The SRAM device on the other side of the bus is modelled as a memory
array `mem` addressed by the 16-bit value present on the address bus
(`PORTC:PORTA`), together with a fault model: `amap` maps the bus address
to the storage cell actually selected (identity = healthy address lines)
and `dmap` maps a stored value to the value the data bus returns on a
read (identity = healthy data lines).  Every bus operation also appends
to an event trace (`Event`) recording data-direction changes, completed
write cycles, completed read cycles and reported per-test results.
-/

/-- Truncation to 8 bits, as performed by an assignment to an 8-bit AVR
register such as `PORTL`. -/
def byte (n : Nat) : Nat := n % 256

/-- C `uint16_t` subtraction `a - b` (for `b ≤ 65536`), which wraps
modulo `2^16` on underflow. -/
def sub16 (a b : Nat) : Nat := (a + 65536 - b) % 65536

/-- The `while (temp > 0) { addressBits++; temp >>= 1; }` loop of
`SRAMStrategy::setSize`, unrolled on a fuel of 32 iterations (the loop
variable is a `uint16_t`, so 16 iterations already reach 0): the number
of binary digits of `n`. -/
def bitCountAux : Nat → Nat → Nat
  | 0, _ => 0
  | fuel + 1, n => if n = 0 then 0 else bitCountAux fuel (n / 2) + 1

/-- Number of binary digits of `n` (for `n < 2^32`), as counted by the
`setSize` loop. -/
def bitCount (n : Nat) : Nat := bitCountAux 32 n

/-- The configuration fields of `SRAMStrategy`
(`include/strategies/SRAMStrategy.h`). -/
structure SRAMStrategy where
  sramSize : Nat
  maxAddress : Nat
  addressBits : Nat

/-- `SRAMStrategy::setSize` (SRAMStrategy.cpp lines 16-29):
`maxAddress = sizeInBytes - 1` in `uint16_t` arithmetic, and
`addressBits` = number of bits of `sizeInBytes - 1`. -/
def SRAMStrategy.setSize (sizeInBytes : Nat) : SRAMStrategy :=
  { sramSize := sizeInBytes
    maxAddress := sub16 sizeInBytes 1
    addressBits := bitCount (sub16 sizeInBytes 1) }

/-- Observable events of a run: a write to the data-direction register
`DDRL`, a completed SRAM write cycle (address latched on the bus, data
byte), a completed SRAM read cycle, and a reported test result
(`sendTestResult`). -/
inductive Event where
  | dirChange (ddrlVal : Nat)
  | memWrite (busAddr : Nat) (data : Nat)
  | memRead (busAddr : Nat) (data : Nat)
  | testOutcome (testNumber : Nat) (passed : Bool)
deriving DecidableEq

/-- The ATmega2560 registers used by the SRAM strategy plus the model of
the SRAM device on the bus: `mem` holds the cell contents, `amap` is the
address-line fault model (which cell a bus address actually selects;
identity on a healthy part) and `dmap` the data-line fault model applied
on read-back (identity on a healthy part).  `rngState` is the state of
the Arduino pseudo-random generator (`randomSeed`/`random`). -/
structure Machine where
  ddra : Nat
  ddrc : Nat
  ddrl : Nat
  ddrg : Nat
  porta : Nat
  portc : Nat
  portl : Nat
  portg : Nat
  mem : Nat → Nat
  amap : Nat → Nat
  dmap : Nat → Nat
  rngState : Nat

/-- The 16-bit address currently driven on the bus: `PORTC` is the high
byte (A8-A15), `PORTA` the low byte (A0-A7). -/
def Machine.busAddr (m : Machine) : Nat := m.portc * 256 + m.porta

/-- `SRAMStrategy::setAddress` (lines 77-96): drive the low address byte
on `PORTA` and the high byte on `PORTC`; for sizes of at most 8192 the
bit 5 of the high byte (line A13, chip pin 26 = CS/CS2 on the 8KB parts)
is forced high. -/
def SRAMStrategy.setAddress (s : SRAMStrategy) (addr : Nat) (m : Machine) : Machine :=
  let highByte := byte (addr >>> 8)
  let highByte := if s.sramSize ≤ 8192 then highByte ||| (1 <<< 5) else highByte
  { m with porta := byte addr, portc := highByte }

/-- The bus address that `setAddress s addr` puts on the bus. -/
def effAddr (s : SRAMStrategy) (addr : Nat) : Nat :=
  (if s.sramSize ≤ 8192 then byte (addr >>> 8) ||| (1 <<< 5) else byte (addr >>> 8)) * 256
    + byte addr

/-- `SRAMStrategy::writeByte` (lines 98-128): set the address, turn the
data bus to output (`DDRL = 0xFF`), drive the data, pulse /CS and /WE
(the SRAM latches `PORTL` into the cell selected by the bus address at
the rising edge of /WE), then restore the data bus to input
(`DDRL = 0x00`). -/
def SRAMStrategy.writeByte (s : SRAMStrategy) (addr data : Nat) (m : Machine) :
    Machine × List Event :=
  let m := s.setAddress addr m
  let m := { m with ddrl := 0xFF }
  let m := { m with portl := byte data }
  let m := { m with portg := m.portg &&& 0xFE }
  let m := { m with portg := m.portg &&& 0xF7 }
  let cell := m.amap m.busAddr
  let written := m.portl
  let m := { m with mem := fun x => if x = cell then written else m.mem x,
                    portg := m.portg ||| 0x08 }
  let m := { m with portg := m.portg ||| 0x01 }
  let busA := m.busAddr
  let m := { m with ddrl := 0x00 }
  (m, [Event.dirChange 0xFF, Event.memWrite busA written, Event.dirChange 0x00])

/-- `SRAMStrategy::readByte` (lines 130-156): set the address, make sure
the data bus is input (`DDRL = 0x00`), pulse /CS and /OE, sample `PINL`
(what the device drives: the faulted view of the selected cell), then
deassert the strobes. -/
def SRAMStrategy.readByte (s : SRAMStrategy) (addr : Nat) (m : Machine) :
    Nat × Machine × List Event :=
  let m := s.setAddress addr m
  let m := { m with ddrl := 0x00 }
  let m := { m with portg := m.portg &&& 0xFE }
  let m := { m with portg := m.portg &&& 0xFB }
  let data := m.dmap (m.mem (m.amap m.busAddr))
  let busA := m.busAddr
  let m := { m with portg := m.portg ||| 0x04 }
  let m := { m with portg := m.portg ||| 0x01 }
  (data, m, [Event.dirChange 0x00, Event.memRead busA data])

/-- `SRAMStrategy::configurePins` (lines 43-61): address bus output,
data bus input with pull-ups off, control pins output and deasserted. -/
def SRAMStrategy.configurePins (m : Machine) : Machine × List Event :=
  let m := { m with ddra := 0xFF }
  let m := { m with ddrc := 0xFF }
  let m := { m with ddrl := 0x00 }
  let m := { m with portl := 0x00 }
  let m := { m with ddrg := m.ddrg ||| 0x0D }
  let m := { m with portg := m.portg ||| 0x0D }
  (m, [Event.dirChange 0x00])

/-- `SRAMStrategy::reset` (lines 63-70): deassert all control signals
and set the data bus to input. -/
def SRAMStrategy.resetDevice (m : Machine) : Machine × List Event :=
  let m := { m with portg := m.portg ||| 0x0D }
  let m := { m with ddrl := 0x00 }
  (m, [Event.dirChange 0x00])

/-- `SRAMStrategy::shouldTestAddress` (lines 158-187), with the two
subtractions performed in `uint16_t` arithmetic as in the source. -/
def SRAMStrategy.shouldTestAddress (s : SRAMStrategy) (addr : Nat) (fullTest : Bool) : Bool :=
  if fullTest then true
  else if addr < 512 then true
  else if sub16 s.maxAddress 512 < addr then true
  else if addr &&& (sub16 addr 1) = 0 then true
  else if addr &&& 0x7F = 0 then true
  else false

/-- The addresses visited by a `for (addr = 0; addr <= maxAddress; addr++)`
loop that skips addresses failing `shouldTestAddress`. -/
def SRAMStrategy.testedAddrs (s : SRAMStrategy) (fullTest : Bool) : List Nat :=
  (List.range (s.maxAddress + 1)).filter (fun a => s.shouldTestAddress a fullTest)

/-- The blind write loops of the two-phase tests (e.g. the
`writeByte(addr, 0x55)` loop of `testCheckerboard`, lines 393-400):
write `f addr` to each tested address in order. -/
def SRAMStrategy.writeLoop (s : SRAMStrategy) (f : Nat → Nat) :
    List Nat → Machine → Machine × List Event
  | [], m => (m, [])
  | a :: rest, m =>
    let r1 := s.writeByte a (f a) m
    let r2 := s.writeLoop f rest r1.1
    (r2.1, r1.2 ++ r2.2)

/-- The read-verify loops of the two-phase tests (e.g. lines 403-416):
read each tested address in order, aborting at the first value that
differs from `f addr`. -/
def SRAMStrategy.verifyLoop (s : SRAMStrategy) (f : Nat → Nat) :
    List Nat → Machine → Bool × Machine × List Event
  | [], m => (true, m, [])
  | a :: rest, m =>
    let r1 := s.readByte a m
    if r1.1 = f a then
      let r2 := s.verifyLoop f rest r1.2.1
      (r2.1, r2.2.1, r1.2.2 ++ r2.2.2)
    else (false, r1.2.1, r1.2.2)

/-- The write-then-immediately-verify loops of tests 1, 2 and 3: for
each `(addr, data)` pair in order, write `data` to `addr`, read `addr`
back and abort on the first mismatch. -/
def SRAMStrategy.writeVerifyLoop (s : SRAMStrategy) :
    List (Nat × Nat) → Machine → Bool × Machine × List Event
  | [], m => (true, m, [])
  | (a, d) :: rest, m =>
    let r1 := s.writeByte a d m
    let r2 := s.readByte a r1.1
    if r2.1 = d then
      let r3 := s.writeVerifyLoop rest r2.2.1
      (r3.1, r3.2.1, r1.2 ++ r2.2.2 ++ r3.2.2)
    else (false, r2.2.1, r1.2 ++ r2.2.2)

/-- `SRAMStrategy::testBasicReadWrite` (lines 292-328): write and
immediately verify `0xAA` at every tested address, then `0x55` at every
tested address; report result 1. -/
def SRAMStrategy.testBasicReadWrite (s : SRAMStrategy) (fullTest : Bool) (m : Machine) :
    Bool × Machine × List Event :=
  let r1 := s.writeVerifyLoop ((s.testedAddrs fullTest).map (fun a => (a, 0xAA))) m
  if r1.1 then
    let r2 := s.writeVerifyLoop ((s.testedAddrs fullTest).map (fun a => (a, 0x55))) r1.2.1
    (r2.1, r2.2.1, r1.2.2 ++ r2.2.2 ++ [Event.testOutcome 1 r2.1])
  else (false, r1.2.1, r1.2.2 ++ [Event.testOutcome 1 false])

/-- `SRAMStrategy::testWalkingOnesAddress` (lines 331-357): for each
address bit `b`, write the constant pattern `0xAA` to address `1 << b`
and immediately read it back; report result 2. -/
def SRAMStrategy.testWalkingOnesAddress (s : SRAMStrategy) (fullTest : Bool) (m : Machine) :
    Bool × Machine × List Event :=
  let _ := fullTest
  let r := s.writeVerifyLoop ((List.range s.addressBits).map (fun b => (1 <<< b, 0xAA))) m
  (r.1, r.2.1, r.2.2 ++ [Event.testOutcome 2 r.1])

/-- `SRAMStrategy::testWalkingOnesData` (lines 360-386): at address 0,
write and immediately verify each single-bit value `1 << b` for
`b ∈ [0, 8)`; report result 3. -/
def SRAMStrategy.testWalkingOnesData (s : SRAMStrategy) (fullTest : Bool) (m : Machine) :
    Bool × Machine × List Event :=
  let _ := fullTest
  let r := s.writeVerifyLoop ((List.range 8).map (fun b => (0, 1 <<< b))) m
  (r.1, r.2.1, r.2.2 ++ [Event.testOutcome 3 r.1])

/-- `SRAMStrategy::testCheckerboard` (lines 389-438): write `0x55` to
every tested address, verify, then write `0xAA` to every tested address
and verify; report result 4. -/
def SRAMStrategy.testCheckerboard (s : SRAMStrategy) (fullTest : Bool) (m : Machine) :
    Bool × Machine × List Event :=
  let as := s.testedAddrs fullTest
  let w1 := s.writeLoop (fun _ => 0x55) as m
  let v1 := s.verifyLoop (fun _ => 0x55) as w1.1
  if v1.1 then
    let w2 := s.writeLoop (fun _ => 0xAA) as v1.2.1
    let v2 := s.verifyLoop (fun _ => 0xAA) as w2.1
    (v2.1, v2.2.1, w1.2 ++ v1.2.2 ++ w2.2 ++ v2.2.2 ++ [Event.testOutcome 4 v2.1])
  else (false, v1.2.1, w1.2 ++ v1.2.2 ++ [Event.testOutcome 4 false])

/-- `SRAMStrategy::testInverseCheckerboard` (lines 441-490): the same
two phases as test 4 with the two constants in the opposite order;
report result 5. -/
def SRAMStrategy.testInverseCheckerboard (s : SRAMStrategy) (fullTest : Bool) (m : Machine) :
    Bool × Machine × List Event :=
  let as := s.testedAddrs fullTest
  let w1 := s.writeLoop (fun _ => 0xAA) as m
  let v1 := s.verifyLoop (fun _ => 0xAA) as w1.1
  if v1.1 then
    let w2 := s.writeLoop (fun _ => 0x55) as v1.2.1
    let v2 := s.verifyLoop (fun _ => 0x55) as w2.1
    (v2.1, v2.2.1, w1.2 ++ v1.2.2 ++ w2.2 ++ v2.2.2 ++ [Event.testOutcome 5 v2.1])
  else (false, v1.2.1, w1.2 ++ v1.2.2 ++ [Event.testOutcome 5 false])

/-- `SRAMStrategy::testAddressEqualsData` (lines 493-528): write the low
byte of each tested address to that address, then verify; report
result 6. -/
def SRAMStrategy.testAddressEqualsData (s : SRAMStrategy) (fullTest : Bool) (m : Machine) :
    Bool × Machine × List Event :=
  let as := s.testedAddrs fullTest
  let w := s.writeLoop (fun a => a &&& 0xFF) as m
  let v := s.verifyLoop (fun a => a &&& 0xFF) as w.1
  (v.1, v.2.1, w.2 ++ v.2.2 ++ [Event.testOutcome 6 v.1])

/-- The write loop of `testRandomPattern` (lines 538-547): draw one
pseudo-random byte per tested address (`random(256)` modelled by a pure
generator step `rng : state → value × state`) and write it. -/
def SRAMStrategy.randomWriteLoop (s : SRAMStrategy) (rng : Nat → Nat × Nat) :
    List Nat → Machine → Machine × List Event
  | [], m => (m, [])
  | a :: rest, m =>
    let step := rng m.rngState
    let r1 := s.writeByte a (byte step.1) { m with rngState := step.2 }
    let r2 := s.randomWriteLoop rng rest r1.1
    (r2.1, r1.2 ++ r2.2)

/-- The verify loop of `testRandomPattern` (lines 553-568): re-draw the
expected byte for each tested address and compare with the value read
back, aborting at the first mismatch. -/
def SRAMStrategy.randomVerifyLoop (s : SRAMStrategy) (rng : Nat → Nat × Nat) :
    List Nat → Machine → Bool × Machine × List Event
  | [], m => (true, m, [])
  | a :: rest, m =>
    let step := rng m.rngState
    let r1 := s.readByte a { m with rngState := step.2 }
    if r1.1 = byte step.1 then
      let r2 := s.randomVerifyLoop rng rest r1.2.1
      (r2.1, r2.2.1, r1.2.2 ++ r2.2.2)
    else (false, r1.2.1, r1.2.2)

/-- `SRAMStrategy::testRandomPattern` (lines 531-572): seed the
generator with the fixed seed 12345 (`seedOf` maps an Arduino
`randomSeed` argument to a generator state), write one pseudo-random
byte per tested address, re-seed with the same value, and verify;
report result 7. -/
def SRAMStrategy.testRandomPattern (s : SRAMStrategy) (rng : Nat → Nat × Nat)
    (seedOf : Nat → Nat) (fullTest : Bool) (m : Machine) : Bool × Machine × List Event :=
  let as := s.testedAddrs fullTest
  let w := s.randomWriteLoop rng as { m with rngState := seedOf 12345 }
  let v := s.randomVerifyLoop rng as { w.1 with rngState := seedOf 12345 }
  (v.1, v.2.1, w.2 ++ v.2.2 ++ [Event.testOutcome 7 v.1])

/-- `SRAMStrategy::runTest` (lines 245-260): dispatch on the test
number; an out-of-range number reports an error and returns `false`. -/
def SRAMStrategy.runTest (s : SRAMStrategy) (rng : Nat → Nat × Nat) (seedOf : Nat → Nat)
    (testNumber : Nat) (fullTest : Bool) (m : Machine) : Bool × Machine × List Event :=
  match testNumber with
  | 1 => s.testBasicReadWrite fullTest m
  | 2 => s.testWalkingOnesAddress fullTest m
  | 3 => s.testWalkingOnesData fullTest m
  | 4 => s.testCheckerboard fullTest m
  | 5 => s.testInverseCheckerboard fullTest m
  | 6 => s.testAddressEqualsData fullTest m
  | 7 => s.testRandomPattern rng seedOf fullTest m
  | _ => (false, m, [])

/-- The `for (test = 1; test <= maxTest; test++)` loop of
`SRAMStrategy::runAllTests` (lines 273-278), carrying the `allPassed`
accumulator. -/
def SRAMStrategy.runLoop (s : SRAMStrategy) (rng : Nat → Nat × Nat) (seedOf : Nat → Nat)
    (fullTest : Bool) : List Nat → Bool → Machine → Bool × Machine × List Event
  | [], allPassed, m => (allPassed, m, [])
  | t :: rest, allPassed, m =>
    let r := s.runTest rng seedOf t fullTest m
    let r2 := s.runLoop rng seedOf fullTest rest (allPassed && r.1) r.2.1
    (r2.1, r2.2.1, r.2.2 ++ r2.2.2)

/-- `SRAMStrategy::runAllTests` (lines 262-289): refuse to run when no
size is configured, otherwise run tests `1..6` (or `1..7` when
`includeRandom`) in order, never stopping at a failure, and return
whether all of them passed. -/
def SRAMStrategy.runAllTests (s : SRAMStrategy) (rng : Nat → Nat × Nat) (seedOf : Nat → Nat)
    (includeRandom fullTest : Bool) (m : Machine) : Bool × Machine × List Event :=
  if s.sramSize = 0 then (false, m, [])
  else
    let maxTest := if includeRandom then 7 else 6
    s.runLoop rng seedOf fullTest (List.range' 1 maxTest) true m

/-- The IC mode values of `ModeManager` (ModeManager.h). -/
inductive ICMode where
  | NONE
  | Z80
  | IC6502
  | SRAM62256
deriving DecidableEq

/-- The state touched by the `MODE SRAM <size>` branch of
`handleModeCommand` in `main.cpp`: the global `SRAMStrategy` instance
and the `ModeManager` current mode. -/
structure SystemState where
  sram : SRAMStrategy
  currentMode : ICMode

/-- Result reported by `handleModeCommand` for `MODE SRAM <size>`:
either the "Invalid SRAM size" error, or success. -/
inductive ModeCmdResult where
  | invalidSize
  | ok
deriving DecidableEq

/-- The `MODE SRAM <size>` branch of `handleModeCommand` (main.cpp
lines 136-160), after the textual size parameter has been parsed to the
`uint32_t` value `size`: the only validation performed is
`size == 0 || size > 65536`; any other value is accepted, truncated to
`uint16_t`, configured via `setSize` and the SRAM session activated via
`ModeManager::setStrategy`. -/
def handleModeSRAM (size : Nat) (st : SystemState) : ModeCmdResult × SystemState :=
  if size = 0 || 65536 < size then (ModeCmdResult.invalidSize, st)
  else
    let s := SRAMStrategy.setSize (size % 65536)
    (ModeCmdResult.ok, { st with sram := s, currentMode := ICMode.SRAM62256 })

/-- The sequence of `DDRL` (data-bus direction) assignments recorded in
a trace. -/
def ddrlWrites (tr : List Event) : List Nat :=
  tr.filterMap (fun e =>
    match e with
    | Event.dirChange v => some v
    | _ => none)

/-- The memory-cycle events (write and read cycles) of a trace. -/
def memEvents (tr : List Event) : List Event :=
  tr.filter (fun e =>
    match e with
    | Event.memWrite _ _ => true
    | Event.memRead _ _ => true
    | _ => false)

/-- The data bytes of the write cycles of a trace, in order. -/
def writtenData (tr : List Event) : List Nat :=
  tr.filterMap (fun e =>
    match e with
    | Event.memWrite _ d => some d
    | _ => none)

/-- The data bytes of the read cycles of a trace, in order. -/
def readData (tr : List Event) : List Nat :=
  tr.filterMap (fun e =>
    match e with
    | Event.memRead _ d => some d
    | _ => none)

/-- The bus addresses of the memory cycles of a trace, in order. -/
def accessedBusAddrs (tr : List Event) : List Nat :=
  tr.filterMap (fun e =>
    match e with
    | Event.memWrite a _ => some a
    | Event.memRead a _ => some a
    | _ => none)

/-- The reported test results of a trace, in order. -/
def reportedResults (tr : List Event) : List (Nat × Bool) :=
  tr.filterMap (fun e =>
    match e with
    | Event.testOutcome n p => some (n, p)
    | _ => none)

/-- Whether every memory write cycle of the trace precedes every memory
read cycle (the "write everything, only then verify" shape that the
specification ascribes to `WalkingOnesAddress`). -/
def writesPrecedeReads (tr : List Event) : Bool :=
  match memEvents tr with
  | es => es.dropWhile (fun e =>
      match e with
      | Event.memWrite _ _ => true
      | _ => false) |>.all (fun e =>
        match e with
        | Event.memRead _ _ => true
        | _ => false)

/-- The healthy-device hypothesis: address decoding and data read-back
are the identity (no stuck, shorted or miswired lines). -/
def Machine.faultFree (m : Machine) : Prop := m.amap = id ∧ m.dmap = id

/-- A convenient concrete machine for witnesses: all registers zero,
all memory cells zero, fault-free device, generator state zero. -/
def m0 : Machine :=
  { ddra := 0, ddrc := 0, ddrl := 0, ddrg := 0
    porta := 0, portc := 0, portl := 0, portg := 0
    mem := fun _ => 0, amap := id, dmap := id, rngState := 0 }

/-- The port operations a caller can issue against the strategy. -/
inductive PortOp where
  | writeOp (addr data : Nat)
  | readOp (addr : Nat)
  | configureOp
  | resetOp

/-- The machine after one port operation (result value and trace
discarded). -/
def SRAMStrategy.applyOp (s : SRAMStrategy) (op : PortOp) (m : Machine) : Machine :=
  match op with
  | PortOp.writeOp a d => (s.writeByte a d m).1
  | PortOp.readOp a => (s.readByte a m).2.1
  | PortOp.configureOp => (SRAMStrategy.configurePins m).1
  | PortOp.resetOp => (SRAMStrategy.resetDevice m).1

/-- The machine after a sequence of port operations. -/
def SRAMStrategy.runOps (s : SRAMStrategy) : List PortOp → Machine → Machine
  | [], m => m
  | op :: ops, m => s.runOps ops (s.applyOp op m)

theorem applyOp_ddrl (s : SRAMStrategy) (op : PortOp) (m : Machine) :
    (s.applyOp op m).ddrl = 0 := by
  cases op <;> rfl

theorem runOps_ddrl (s : SRAMStrategy) :
    ∀ (ops : List PortOp) (m : Machine), ops ≠ [] → (s.runOps ops m).ddrl = 0 := by
  intro ops
  induction ops with
  | nil => intro m h; exact absurd rfl h
  | cons op rest ih =>
    intro m _
    cases rest with
    | nil => exact applyOp_ddrl s op m
    | cons op2 rest2 => exact ih (s.applyOp op m) (by simp)

/-- C1: the data-bus direction register `DDRL` is `Output` (0xFF) only
inside a single `writeByte` call, which unconditionally restores it to
`Input` (0x00) before returning; `readByte`, `configurePins` and
`reset` keep or set it to `Input`; hence after any nonempty sequence of
port operations the data-bus direction is `Input`. -/
theorem c1_data_direction_invariant (s : SRAMStrategy) (addr data : Nat) (m : Machine)
    (ops : List PortOp) (h : ops ≠ []) :
    ddrlWrites (s.writeByte addr data m).2 = [0xFF, 0x00]
    ∧ (s.writeByte addr data m).1.ddrl = 0
    ∧ (s.readByte addr m).2.1.ddrl = 0
    ∧ (SRAMStrategy.configurePins m).1.ddrl = 0
    ∧ (SRAMStrategy.resetDevice m).1.ddrl = 0
    ∧ (s.runOps ops m).ddrl = 0 :=
  ⟨rfl, rfl, rfl, rfl, rfl, runOps_ddrl s ops m h⟩

/-- Witness for C1 at a concrete strategy, machine and operation
sequence. -/
theorem c1_data_direction_invariant_witness :
    ddrlWrites ((SRAMStrategy.setSize 8192).writeByte 51 170 m0).2 = [0xFF, 0x00]
    ∧ ((SRAMStrategy.setSize 8192).runOps
        [PortOp.configureOp, PortOp.writeOp 51 170, PortOp.readOp 51] m0).ddrl = 0 :=
  ⟨(c1_data_direction_invariant (SRAMStrategy.setSize 8192) 51 170 m0
      [PortOp.configureOp] (by simp)).1,
   (c1_data_direction_invariant (SRAMStrategy.setSize 8192) 51 170 m0
      [PortOp.configureOp, PortOp.writeOp 51 170, PortOp.readOp 51] (by simp)).2.2.2.2.2⟩

/-- C9: the `MODE SRAM <size>` handler only rejects `size == 0` and
`size > 65536`; it does not validate that the size is a power of two.
A non-power-of-two size such as 1000 is accepted: the strategy is
configured with `sramSize = 1000` and the SRAM session becomes active,
contradicting the validation comment in the source
("must be power of 2") and the specified `InvalidAddressSpaceSize`
error. -/
theorem c9_non_power_of_two_size_accepted :
    (handleModeSRAM 1000 ⟨SRAMStrategy.setSize 0, ICMode.NONE⟩).1 = ModeCmdResult.ok
    ∧ (handleModeSRAM 1000 ⟨SRAMStrategy.setSize 0, ICMode.NONE⟩).2.sram.sramSize = 1000
    ∧ (handleModeSRAM 1000 ⟨SRAMStrategy.setSize 0, ICMode.NONE⟩).2.currentMode
        = ICMode.SRAM62256
    ∧ (¬ ∃ k, 1000 = 2 ^ k)
    ∧ (handleModeSRAM 0 ⟨SRAMStrategy.setSize 0, ICMode.NONE⟩).1 = ModeCmdResult.invalidSize := by
  refine ⟨rfl, rfl, rfl, ?_, rfl⟩
  rintro ⟨k, hk⟩
  have hlt : k < 10 := by
    by_contra hge
    have : 2 ^ 10 ≤ 2 ^ k := Nat.pow_le_pow_right (by omega) (by omega)
    omega
  interval_cases k <;> omega

/-- C10: for a configured size of at most 8192 bytes, `setAddress` (and
hence every `writeByte` and `readByte`, which call it) drives the high
address byte with bit 5 (line A13, chip pin 26) forced high regardless
of the requested address; for sizes above 8192 the 16-bit address is
driven exactly as given, split into its low and high bytes. -/
theorem c10_a13_forced_for_small_sizes (sz addr data : Nat) (m : Machine) :
    (sz ≤ 8192 →
      ((SRAMStrategy.setSize sz).setAddress addr m).porta = byte addr
      ∧ ((SRAMStrategy.setSize sz).setAddress addr m).portc = byte (addr >>> 8) ||| 32
      ∧ (((SRAMStrategy.setSize sz).setAddress addr m).portc).testBit 5 = true
      ∧ ((SRAMStrategy.setSize sz).writeByte addr data m).1.portc = byte (addr >>> 8) ||| 32
      ∧ ((SRAMStrategy.setSize sz).readByte addr m).2.1.portc = byte (addr >>> 8) ||| 32)
    ∧ (8192 < sz →
      ((SRAMStrategy.setSize sz).setAddress addr m).porta = byte addr
      ∧ ((SRAMStrategy.setSize sz).setAddress addr m).portc = byte (addr >>> 8)
      ∧ ((SRAMStrategy.setSize sz).writeByte addr data m).1.portc = byte (addr >>> 8)
      ∧ ((SRAMStrategy.setSize sz).readByte addr m).2.1.portc = byte (addr >>> 8)) := by
  have h32 : ∀ x : Nat, (x ||| 32).testBit 5 = true := by
    intro x
    rw [Nat.testBit_or]
    have : Nat.testBit 32 5 = true := by decide
    simp [this]
  constructor
  · intro h
    refine ⟨?_, ?_, ?_, ?_, ?_⟩ <;>
      simp [SRAMStrategy.setAddress, SRAMStrategy.writeByte, SRAMStrategy.readByte,
        SRAMStrategy.setSize, h, h32]
  · intro h
    have hif : ¬ sz ≤ 8192 := by omega
    refine ⟨?_, ?_, ?_, ?_⟩ <;>
      simp [SRAMStrategy.setAddress, SRAMStrategy.writeByte, SRAMStrategy.readByte,
        SRAMStrategy.setSize, hif]

/-- Witness for C10 at size 8192 (A13 forced) and size 32768 (address
driven as given), address 0x1234. -/
theorem c10_a13_forced_for_small_sizes_witness :
    (((SRAMStrategy.setSize 8192).setAddress 4660 m0).portc).testBit 5 = true
    ∧ ((SRAMStrategy.setSize 32768).setAddress 4660 m0).portc = byte (4660 >>> 8) :=
  ⟨((c10_a13_forced_for_small_sizes 8192 4660 0 m0).1 (by decide)).2.2.1,
   ((c10_a13_forced_for_small_sizes 32768 4660 0 m0).2 (by decide)).2.1⟩

@[simp] theorem writeByte_amap (s : SRAMStrategy) (a d : Nat) (m : Machine) :
    (s.writeByte a d m).1.amap = m.amap := rfl

@[simp] theorem writeByte_dmap (s : SRAMStrategy) (a d : Nat) (m : Machine) :
    (s.writeByte a d m).1.dmap = m.dmap := rfl

@[simp] theorem writeByte_rngState (s : SRAMStrategy) (a d : Nat) (m : Machine) :
    (s.writeByte a d m).1.rngState = m.rngState := rfl

theorem writeByte_mem (s : SRAMStrategy) (a d : Nat) (m : Machine) :
    (s.writeByte a d m).1.mem
      = fun x => if x = m.amap (effAddr s a) then byte d else m.mem x := rfl

@[simp] theorem writeByte_trace (s : SRAMStrategy) (a d : Nat) (m : Machine) :
    (s.writeByte a d m).2
      = [Event.dirChange 0xFF, Event.memWrite (effAddr s a) (byte d), Event.dirChange 0x00] := rfl

@[simp] theorem readByte_amap (s : SRAMStrategy) (a : Nat) (m : Machine) :
    (s.readByte a m).2.1.amap = m.amap := rfl

@[simp] theorem readByte_dmap (s : SRAMStrategy) (a : Nat) (m : Machine) :
    (s.readByte a m).2.1.dmap = m.dmap := rfl

@[simp] theorem readByte_rngState (s : SRAMStrategy) (a : Nat) (m : Machine) :
    (s.readByte a m).2.1.rngState = m.rngState := rfl

@[simp] theorem readByte_mem (s : SRAMStrategy) (a : Nat) (m : Machine) :
    (s.readByte a m).2.1.mem = m.mem := rfl

theorem readByte_val (s : SRAMStrategy) (a : Nat) (m : Machine) :
    (s.readByte a m).1 = m.dmap (m.mem (m.amap (effAddr s a))) := rfl

@[simp] theorem readByte_trace (s : SRAMStrategy) (a : Nat) (m : Machine) :
    (s.readByte a m).2.2
      = [Event.dirChange 0x00,
         Event.memRead (effAddr s a) (m.dmap (m.mem (m.amap (effAddr s a))))] := rfl

/-- Reading an address immediately after writing it returns the written
byte whenever the data lines are healthy, whatever the address-decoding
fault: both cycles select the same cell. -/
theorem readByte_after_writeByte (s : SRAMStrategy) (a d : Nat) (m : Machine)
    (hd : m.dmap = id) : (s.readByte a (s.writeByte a d m).1).1 = byte d := by
  simp [readByte_val, writeByte_mem, hd]

/-- Counterexample to C2 as stated: on address-space size 8, the first
write phase of `testCheckerboard` (its `writeByte(addr, 0x55)` loop over
the tested addresses) writes `0x55` to every address, odd ones included,
so reading back all 8 addresses yields `[0x55, ..., 0x55]`, not the
alternating list `[0x55, 0xAA, ...]` the claim asserts. -/
theorem c2_checkerboard_counterexample :
    writtenData ((SRAMStrategy.setSize 8).writeLoop (fun _ => 0x55)
        ((SRAMStrategy.setSize 8).testedAddrs false) m0).2 = List.replicate 8 0x55
    ∧ (List.range 8).map
        (fun a => ((SRAMStrategy.setSize 8).readByte a
          ((SRAMStrategy.setSize 8).writeLoop (fun _ => 0x55)
            ((SRAMStrategy.setSize 8).testedAddrs false) m0).1).1)
      = List.replicate 8 0x55
    ∧ ¬ ((List.range 8).map
        (fun a => ((SRAMStrategy.setSize 8).readByte a
          ((SRAMStrategy.setSize 8).writeLoop (fun _ => 0x55)
            ((SRAMStrategy.setSize 8).testedAddrs false) m0).1).1)
      = [0x55, 0xAA, 0x55, 0xAA, 0x55, 0xAA, 0x55, 0xAA]) := by
  decide

/-- Counterexample to C5 as stated: on address-space size 8 (3 address
bits), `testWalkingOnesAddress` writes the same constant `0xAA` at every
bit position (the written values are not pairwise distinct), and every
write is followed immediately by its read-back, so verification is not
deferred until after all the writes. -/
theorem c5_walking_address_counterexample :
    writtenData ((SRAMStrategy.setSize 8).testWalkingOnesAddress false m0).2.2
      = [0xAA, 0xAA, 0xAA]
    ∧ ¬ (writtenData ((SRAMStrategy.setSize 8).testWalkingOnesAddress false m0).2.2).Nodup
    ∧ writesPrecedeReads ((SRAMStrategy.setSize 8).testWalkingOnesAddress false m0).2.2
      = false
    ∧ memEvents ((SRAMStrategy.setSize 8).testWalkingOnesAddress false m0).2.2
      = [Event.memWrite 8193 0xAA, Event.memRead 8193 0xAA,
         Event.memWrite 8194 0xAA, Event.memRead 8194 0xAA,
         Event.memWrite 8196 0xAA, Event.memRead 8196 0xAA] := by
  decide

/-- Counterexample to C6 as stated: `testWalkingOnesData` writes only
the eight single-bit values; no complement (e.g. `0xFE`, the complement
of `0x01`) is ever written. -/
theorem c6_walking_data_counterexample :
    writtenData ((SRAMStrategy.setSize 8).testWalkingOnesData false m0).2.2
      = [1, 2, 4, 8, 16, 32, 64, 128]
    ∧ ¬ (0xFE ∈ writtenData ((SRAMStrategy.setSize 8).testWalkingOnesData false m0).2.2) := by
  decide

set_option maxRecDepth 8000 in
/-- Counterexample to C7 as stated: on address-space size 8,
`testBasicReadWrite` performs sixteen writes (two per tested address),
not two, and it accesses bus addresses other than the one for address
zero (e.g. the cycle for address 1). -/
theorem c7_basic_counterexample :
    (writtenData ((SRAMStrategy.setSize 8).testBasicReadWrite false m0).2.2).length = 16
    ∧ ∃ b ∈ accessedBusAddrs ((SRAMStrategy.setSize 8).testBasicReadWrite false m0).2.2,
        b ≠ effAddr (SRAMStrategy.setSize 8) 0 := by
  decide

@[simp] theorem memEvents_nil : memEvents [] = [] := rfl

@[simp] theorem memEvents_cons_dir (v : Nat) (tr : List Event) :
    memEvents (Event.dirChange v :: tr) = memEvents tr := rfl

@[simp] theorem memEvents_cons_write (a d : Nat) (tr : List Event) :
    memEvents (Event.memWrite a d :: tr) = Event.memWrite a d :: memEvents tr := rfl

@[simp] theorem memEvents_cons_read (a d : Nat) (tr : List Event) :
    memEvents (Event.memRead a d :: tr) = Event.memRead a d :: memEvents tr := rfl

@[simp] theorem memEvents_cons_outcome (n : Nat) (p : Bool) (tr : List Event) :
    memEvents (Event.testOutcome n p :: tr) = memEvents tr := rfl

@[simp] theorem memEvents_append (t1 t2 : List Event) :
    memEvents (t1 ++ t2) = memEvents t1 ++ memEvents t2 := List.filter_append t1 t2

@[simp] theorem reportedResults_nil : reportedResults [] = [] := rfl

@[simp] theorem reportedResults_cons_dir (v : Nat) (tr : List Event) :
    reportedResults (Event.dirChange v :: tr) = reportedResults tr := rfl

@[simp] theorem reportedResults_cons_write (a d : Nat) (tr : List Event) :
    reportedResults (Event.memWrite a d :: tr) = reportedResults tr := rfl

@[simp] theorem reportedResults_cons_read (a d : Nat) (tr : List Event) :
    reportedResults (Event.memRead a d :: tr) = reportedResults tr := rfl

@[simp] theorem reportedResults_cons_outcome (n : Nat) (p : Bool) (tr : List Event) :
    reportedResults (Event.testOutcome n p :: tr) = (n, p) :: reportedResults tr := rfl

@[simp] theorem reportedResults_append (t1 t2 : List Event) :
    reportedResults (t1 ++ t2) = reportedResults t1 ++ reportedResults t2 :=
  List.filterMap_append t1 t2 _

@[simp] theorem writtenData_nil : writtenData [] = [] := rfl

@[simp] theorem writtenData_cons_dir (v : Nat) (tr : List Event) :
    writtenData (Event.dirChange v :: tr) = writtenData tr := rfl

@[simp] theorem writtenData_cons_write (a d : Nat) (tr : List Event) :
    writtenData (Event.memWrite a d :: tr) = d :: writtenData tr := rfl

@[simp] theorem writtenData_cons_read (a d : Nat) (tr : List Event) :
    writtenData (Event.memRead a d :: tr) = writtenData tr := rfl

@[simp] theorem writtenData_cons_outcome (n : Nat) (p : Bool) (tr : List Event) :
    writtenData (Event.testOutcome n p :: tr) = writtenData tr := rfl

@[simp] theorem writtenData_append (t1 t2 : List Event) :
    writtenData (t1 ++ t2) = writtenData t1 ++ writtenData t2 :=
  List.filterMap_append t1 t2 _

@[simp] theorem readData_nil : readData [] = [] := rfl

@[simp] theorem readData_cons_dir (v : Nat) (tr : List Event) :
    readData (Event.dirChange v :: tr) = readData tr := rfl

@[simp] theorem readData_cons_write (a d : Nat) (tr : List Event) :
    readData (Event.memWrite a d :: tr) = readData tr := rfl

@[simp] theorem readData_cons_read (a d : Nat) (tr : List Event) :
    readData (Event.memRead a d :: tr) = d :: readData tr := rfl

@[simp] theorem readData_cons_outcome (n : Nat) (p : Bool) (tr : List Event) :
    readData (Event.testOutcome n p :: tr) = readData tr := rfl

@[simp] theorem readData_append (t1 t2 : List Event) :
    readData (t1 ++ t2) = readData t1 ++ readData t2 :=
  List.filterMap_append t1 t2 _

/-- A write-then-immediately-verify loop over pairs with byte-sized data
always succeeds when the data lines are healthy (whatever the state of
the address lines: both cycles of a pair select the same cell), and its
memory cycles are exactly one write followed by one read per pair. -/
theorem writeVerifyLoop_ok (s : SRAMStrategy) :
    ∀ (ps : List (Nat × Nat)) (m : Machine), m.dmap = id → (∀ p ∈ ps, p.2 < 256) →
    (s.writeVerifyLoop ps m).1 = true
    ∧ memEvents (s.writeVerifyLoop ps m).2.2
        = ps.flatMap (fun p => [Event.memWrite (effAddr s p.1) p.2,
                                Event.memRead (effAddr s p.1) p.2])
    ∧ (s.writeVerifyLoop ps m).2.1.dmap = m.dmap := by
  intro ps
  induction ps with
  | nil => intro m _ _; exact ⟨rfl, rfl, rfl⟩
  | cons p rest ih =>
    intro m hd hps
    obtain ⟨a, d⟩ := p
    have hd256 : d < 256 := hps (a, d) (by simp)
    have hbyte : byte d = d := Nat.mod_eq_of_lt hd256
    have hifc : (s.readByte a (s.writeByte a d m).1).1 = d := by
      rw [readByte_after_writeByte s a d m hd, hbyte]
    have hd2 : (s.readByte a (s.writeByte a d m).1).2.1.dmap = id := by simp [hd]
    have hrest := ih (s.readByte a (s.writeByte a d m).1).2.1 hd2
      (fun p hp => hps p (List.mem_cons_of_mem _ hp))
    simp only [SRAMStrategy.writeVerifyLoop, hifc, if_pos]
    refine ⟨hrest.1, ?_, by simp [hrest.2.2, hd2, hd]⟩
    simp [hrest.2.1, hifc, hbyte, writeByte_mem, hd]

/-- C7 (amended): `testBasicReadWrite` writes and then immediately
verifies the two canonical bytes `0xAA` and `0x55` at *every* tested
address (one full pass per byte), and on healthy data lines it passes. -/
theorem c7_basic_amended (s : SRAMStrategy) (fullTest : Bool) (m : Machine)
    (hd : m.dmap = id) :
    (s.testBasicReadWrite fullTest m).1 = true
    ∧ memEvents (s.testBasicReadWrite fullTest m).2.2
      = (s.testedAddrs fullTest).flatMap
          (fun a => [Event.memWrite (effAddr s a) 0xAA, Event.memRead (effAddr s a) 0xAA])
        ++ (s.testedAddrs fullTest).flatMap
          (fun a => [Event.memWrite (effAddr s a) 0x55, Event.memRead (effAddr s a) 0x55]) := by
  have h1 := writeVerifyLoop_ok s ((s.testedAddrs fullTest).map (fun a => (a, 0xAA))) m hd
    (by intro p hp; obtain ⟨a, ha, rfl⟩ := List.mem_map.1 hp; norm_num)
  have h2 := writeVerifyLoop_ok s ((s.testedAddrs fullTest).map (fun a => (a, 0x55)))
    (s.writeVerifyLoop ((s.testedAddrs fullTest).map (fun a => (a, 0xAA))) m).2.1
    (by rw [h1.2.2, hd])
    (by intro p hp; obtain ⟨a, ha, rfl⟩ := List.mem_map.1 hp; norm_num)
  simp only [SRAMStrategy.testBasicReadWrite, h1.1, if_pos]
  refine ⟨h2.1, ?_⟩
  simp [h1.2.1, h2.2.1, List.flatMap_map]

/-- Witness for C7 (amended) on a fault-free machine at size 8. -/
theorem c7_basic_amended_witness :
    ((SRAMStrategy.setSize 8).testBasicReadWrite false m0).1 = true :=
  (c7_basic_amended (SRAMStrategy.setSize 8) false m0 rfl).1

/-- C5 (amended): `testWalkingOnesAddress` writes the constant pattern
`0xAA` to address `1 << b` for each address bit `b` and immediately
verifies each write before the next one; with healthy data lines it
passes (note: immediate verification of a constant pattern means an
address-line short cannot make it fail). -/
theorem c5_walking_address_amended (s : SRAMStrategy) (fullTest : Bool) (m : Machine)
    (hd : m.dmap = id) :
    (s.testWalkingOnesAddress fullTest m).1 = true
    ∧ memEvents (s.testWalkingOnesAddress fullTest m).2.2
      = (List.range s.addressBits).flatMap
          (fun b => [Event.memWrite (effAddr s (1 <<< b)) 0xAA,
                     Event.memRead (effAddr s (1 <<< b)) 0xAA]) := by
  have h := writeVerifyLoop_ok s ((List.range s.addressBits).map (fun b => (1 <<< b, 0xAA))) m hd
    (by intro p hp; obtain ⟨b, hb, rfl⟩ := List.mem_map.1 hp; norm_num)
  simp only [SRAMStrategy.testWalkingOnesAddress]
  refine ⟨h.1, ?_⟩
  simp [h.2.1, h.1, List.flatMap_map]

/-- Witness for C5 (amended) on a fault-free machine at size 8. -/
theorem c5_walking_address_amended_witness :
    ((SRAMStrategy.setSize 8).testWalkingOnesAddress false m0).1 = true :=
  (c5_walking_address_amended (SRAMStrategy.setSize 8) false m0 rfl).1

/-- C6 (amended): `testWalkingOnesData` writes and immediately verifies
each of the eight single-bit values `1 << d`, `d ∈ [0, 8)`, at address
0, and nothing else — there is no complement phase; with healthy data
lines it passes. -/
theorem c6_walking_data_amended (s : SRAMStrategy) (fullTest : Bool) (m : Machine)
    (hd : m.dmap = id) :
    (s.testWalkingOnesData fullTest m).1 = true
    ∧ memEvents (s.testWalkingOnesData fullTest m).2.2
      = (List.range 8).flatMap
          (fun b => [Event.memWrite (effAddr s 0) (1 <<< b),
                     Event.memRead (effAddr s 0) (1 <<< b)]) := by
  have h := writeVerifyLoop_ok s ((List.range 8).map (fun b => (0, 1 <<< b))) m hd
    (by
      intro p hp
      obtain ⟨b, hb, rfl⟩ := List.mem_map.1 hp
      have hb8 : b < 8 := List.mem_range.1 hb
      have : (1 : Nat) <<< b = 2 ^ b := by rw [Nat.shiftLeft_eq, Nat.one_mul]
      rw [this]
      calc 2 ^ b < 2 ^ 8 := Nat.pow_lt_pow_right (by omega) hb8
        _ = 256 := by norm_num)
  simp only [SRAMStrategy.testWalkingOnesData]
  refine ⟨h.1, ?_⟩
  simp [h.2.1, h.1, List.flatMap_map]

/-- Witness for C6 (amended) on a fault-free machine at size 8. -/
theorem c6_walking_data_amended_witness :
    ((SRAMStrategy.setSize 8).testWalkingOnesData false m0).1 = true :=
  (c6_walking_data_amended (SRAMStrategy.setSize 8) false m0 rfl).1

/-- A blind write loop of a constant `c` leaves `c` in every cell
selected by the written addresses, changes no cell to anything other
than `c`, and emits exactly one write cycle per address. -/
theorem writeLoop_const (s : SRAMStrategy) (c : Nat) :
    ∀ (as : List Nat) (m : Machine),
    (s.writeLoop (fun _ => c) as m).1.amap = m.amap
    ∧ (s.writeLoop (fun _ => c) as m).1.dmap = m.dmap
    ∧ (∀ a ∈ as, (s.writeLoop (fun _ => c) as m).1.mem (m.amap (effAddr s a)) = byte c)
    ∧ (∀ x, (s.writeLoop (fun _ => c) as m).1.mem x = byte c
        ∨ (s.writeLoop (fun _ => c) as m).1.mem x = m.mem x)
    ∧ memEvents (s.writeLoop (fun _ => c) as m).2
        = as.map (fun a => Event.memWrite (effAddr s a) (byte c)) := by
  intro as
  induction as with
  | nil => intro m; exact ⟨rfl, rfl, by simp, fun x => Or.inr rfl, rfl⟩
  | cons a rest ih =>
    intro m
    have hm1 := ih (s.writeByte a c m).1
    have hamap : (s.writeByte a c m).1.amap = m.amap := writeByte_amap s a c m
    refine ⟨by rw [SRAMStrategy.writeLoop, hm1.1, hamap],
            by rw [SRAMStrategy.writeLoop, hm1.2.1, writeByte_dmap],
            ?_, ?_, ?_⟩
    · intro a' ha'
      rcases List.mem_cons.1 ha' with h | h
      · subst h
        rcases hm1.2.2.2.1 (m.amap (effAddr s a')) with h2 | h2
        · rw [SRAMStrategy.writeLoop]; exact h2
        · rw [SRAMStrategy.writeLoop, h2, writeByte_mem]; simp
      · have := hm1.2.2.1 a' h
        rw [hamap] at this
        rw [SRAMStrategy.writeLoop]; exact this
    · intro x
      rcases hm1.2.2.2.1 x with h2 | h2
      · exact Or.inl (by rw [SRAMStrategy.writeLoop]; exact h2)
      · rw [SRAMStrategy.writeLoop]
        rw [h2, writeByte_mem]
        by_cases hx : x = m.amap (effAddr s a)
        · exact Or.inl (by simp [hx])
        · exact Or.inr (by simp [hx])
    · rw [SRAMStrategy.writeLoop]
      simp [hm1.2.2.2.2]

/-- A verify loop of a constant `c < 256` succeeds when the data lines
are healthy and every selected cell holds `c`; it does not modify
memory and emits exactly one read cycle per address. -/
theorem verifyLoop_const_ok (s : SRAMStrategy) (c : Nat) (_hc : c < 256) :
    ∀ (as : List Nat) (m : Machine), m.dmap = id →
      (∀ a ∈ as, m.mem (m.amap (effAddr s a)) = c) →
    (s.verifyLoop (fun _ => c) as m).1 = true
    ∧ (s.verifyLoop (fun _ => c) as m).2.1.mem = m.mem
    ∧ (s.verifyLoop (fun _ => c) as m).2.1.amap = m.amap
    ∧ (s.verifyLoop (fun _ => c) as m).2.1.dmap = m.dmap
    ∧ memEvents (s.verifyLoop (fun _ => c) as m).2.2
        = as.map (fun a => Event.memRead (effAddr s a) c) := by
  intro as
  induction as with
  | nil => intro m _ _; exact ⟨rfl, rfl, rfl, rfl, rfl⟩
  | cons a rest ih =>
    intro m hd hmem
    have hval : (s.readByte a m).1 = c := by
      rw [readByte_val, hd, hmem a (by simp)]; rfl
    have hm1 := ih (s.readByte a m).2.1 (by simp [hd])
      (by intro a' ha'; simp [hmem a' (List.mem_cons_of_mem _ ha')])
    have hval2 : m.dmap (m.mem (m.amap (effAddr s a))) = c := hval
    rw [SRAMStrategy.verifyLoop]
    rw [hval, if_pos rfl]
    refine ⟨hm1.1, by simp [hm1.2.1], by simp [hm1.2.2.1], by simp [hm1.2.2.2.1], ?_⟩
    simp [hm1.2.2.2.2, hval2]

/-- C2 (amended): the first write phase of `testCheckerboard` writes
`0x55` to every tested address — even and odd alike — and the second
phase `0xAA` to every tested address; each write phase is followed by a
full read-verify pass, and on healthy data lines the test passes.  In
particular reading back any tested address right after the first write
phase returns `0x55`, not the even/odd alternation of the claim. -/
theorem c2_checkerboard_amended (s : SRAMStrategy) (fullTest : Bool) (m : Machine)
    (hd : m.dmap = id) :
    (s.testCheckerboard fullTest m).1 = true
    ∧ (∀ a ∈ s.testedAddrs fullTest,
        (s.readByte a (s.writeLoop (fun _ => 0x55) (s.testedAddrs fullTest) m).1).1 = 0x55)
    ∧ memEvents (s.testCheckerboard fullTest m).2.2
      = (s.testedAddrs fullTest).map (fun a => Event.memWrite (effAddr s a) 0x55)
        ++ (s.testedAddrs fullTest).map (fun a => Event.memRead (effAddr s a) 0x55)
        ++ (s.testedAddrs fullTest).map (fun a => Event.memWrite (effAddr s a) 0xAA)
        ++ (s.testedAddrs fullTest).map (fun a => Event.memRead (effAddr s a) 0xAA) := by
  have b55 : byte 0x55 = 0x55 := rfl
  have b170 : byte 0xAA = 0xAA := rfl
  have hw1 := writeLoop_const s 0x55 (s.testedAddrs fullTest) m
  have hv1 := verifyLoop_const_ok s 0x55 (by norm_num) (s.testedAddrs fullTest)
    (s.writeLoop (fun _ => 0x55) (s.testedAddrs fullTest) m).1
    (by rw [hw1.2.1, hd])
    (by intro a ha; rw [hw1.1]; exact (hw1.2.2.1 a ha).trans b55)
  have hw2 := writeLoop_const s 0xAA (s.testedAddrs fullTest)
    (s.verifyLoop (fun _ => 0x55) (s.testedAddrs fullTest)
      (s.writeLoop (fun _ => 0x55) (s.testedAddrs fullTest) m).1).2.1
  have hv2 := verifyLoop_const_ok s 0xAA (by norm_num) (s.testedAddrs fullTest)
    (s.writeLoop (fun _ => 0xAA) (s.testedAddrs fullTest)
      (s.verifyLoop (fun _ => 0x55) (s.testedAddrs fullTest)
        (s.writeLoop (fun _ => 0x55) (s.testedAddrs fullTest) m).1).2.1).1
    (by rw [hw2.2.1, hv1.2.2.2.1, hw1.2.1, hd])
    (by intro a ha; rw [hw2.1]; exact (hw2.2.2.1 a ha).trans b170)
  refine ⟨?_, ?_, ?_⟩
  · simp [SRAMStrategy.testCheckerboard, hv1.1, hv2.1]
  · intro a ha
    have hcell := (hw1.2.2.1 a ha).trans b55
    simpa [readByte_val, hw1.2.1, hd, hw1.1] using hcell
  · simp [SRAMStrategy.testCheckerboard, hv1.1, hw1.2.2.2.2, hv1.2.2.2.2,
      hw2.2.2.2.2, hv2.2.2.2.2, b55, b170]

/-- Witness for C2 (amended) on a fault-free machine at size 8. -/
theorem c2_checkerboard_amended_witness :
    ((SRAMStrategy.setSize 8).testCheckerboard false m0).1 = true :=
  (c2_checkerboard_amended (SRAMStrategy.setSize 8) false m0 rfl).1

theorem reportedResults_writeLoop (s : SRAMStrategy) (f : Nat → Nat) :
    ∀ (as : List Nat) (m : Machine), reportedResults (s.writeLoop f as m).2 = [] := by
  intro as
  induction as with
  | nil => intro m; rfl
  | cons a rest ih => intro m; simp only [SRAMStrategy.writeLoop]; simp [ih]

theorem reportedResults_verifyLoop (s : SRAMStrategy) (f : Nat → Nat) :
    ∀ (as : List Nat) (m : Machine), reportedResults (s.verifyLoop f as m).2.2 = [] := by
  intro as
  induction as with
  | nil => intro m; rfl
  | cons a rest ih =>
    intro m
    simp only [SRAMStrategy.verifyLoop]
    split <;> simp [ih]

theorem reportedResults_writeVerifyLoop (s : SRAMStrategy) :
    ∀ (ps : List (Nat × Nat)) (m : Machine),
      reportedResults (s.writeVerifyLoop ps m).2.2 = [] := by
  intro ps
  induction ps with
  | nil => intro m; rfl
  | cons p rest ih =>
    intro m
    obtain ⟨a, d⟩ := p
    simp only [SRAMStrategy.writeVerifyLoop]
    split <;> simp [ih]

theorem reportedResults_randomWriteLoop (s : SRAMStrategy) (rng : Nat → Nat × Nat) :
    ∀ (as : List Nat) (m : Machine), reportedResults (s.randomWriteLoop rng as m).2 = [] := by
  intro as
  induction as with
  | nil => intro m; rfl
  | cons a rest ih => intro m; simp only [SRAMStrategy.randomWriteLoop]; simp [ih]

theorem reportedResults_randomVerifyLoop (s : SRAMStrategy) (rng : Nat → Nat × Nat) :
    ∀ (as : List Nat) (m : Machine),
      reportedResults (s.randomVerifyLoop rng as m).2.2 = [] := by
  intro as
  induction as with
  | nil => intro m; rfl
  | cons a rest ih =>
    intro m
    simp only [SRAMStrategy.randomVerifyLoop]
    split <;> simp [ih]

/-- Every individual test reports exactly one outcome, carrying its own
test number and its own pass/fail result. -/
theorem runTest_reports_exactly_one (s : SRAMStrategy) (rng : Nat → Nat × Nat)
    (seedOf : Nat → Nat) (t : Nat) (fullTest : Bool) (m : Machine)
    (ht : 1 ≤ t ∧ t ≤ 7) :
    reportedResults (s.runTest rng seedOf t fullTest m).2.2
      = [(t, (s.runTest rng seedOf t fullTest m).1)] := by
  obtain ⟨h1, h7⟩ := ht
  interval_cases t
  · simp only [SRAMStrategy.runTest, SRAMStrategy.testBasicReadWrite]
    split <;> simp [reportedResults_writeVerifyLoop]
  · simp only [SRAMStrategy.runTest, SRAMStrategy.testWalkingOnesAddress]
    simp [reportedResults_writeVerifyLoop]
  · simp only [SRAMStrategy.runTest, SRAMStrategy.testWalkingOnesData]
    simp [reportedResults_writeVerifyLoop]
  · simp only [SRAMStrategy.runTest, SRAMStrategy.testCheckerboard]
    split <;> simp [reportedResults_writeLoop, reportedResults_verifyLoop]
  · simp only [SRAMStrategy.runTest, SRAMStrategy.testInverseCheckerboard]
    split <;> simp [reportedResults_writeLoop, reportedResults_verifyLoop]
  · simp only [SRAMStrategy.runTest, SRAMStrategy.testAddressEqualsData]
    simp [reportedResults_writeLoop, reportedResults_verifyLoop]
  · simp only [SRAMStrategy.runTest, SRAMStrategy.testRandomPattern]
    simp [reportedResults_randomWriteLoop, reportedResults_randomVerifyLoop]

/-- The test loop of `runAllTests` reports one outcome per requested
test, in the requested order, and its return value is the conjunction
of the incoming accumulator with all reported outcomes. -/
theorem runLoop_spec (s : SRAMStrategy) (rng : Nat → Nat × Nat) (seedOf : Nat → Nat)
    (fullTest : Bool) :
    ∀ (ts : List Nat) (acc : Bool) (m : Machine), (∀ t ∈ ts, 1 ≤ t ∧ t ≤ 7) →
    (reportedResults (s.runLoop rng seedOf fullTest ts acc m).2.2).map Prod.fst = ts
    ∧ (s.runLoop rng seedOf fullTest ts acc m).1
        = (acc && (reportedResults
            (s.runLoop rng seedOf fullTest ts acc m).2.2).all (fun p => p.2)) := by
  intro ts
  induction ts with
  | nil => intro acc m _; simp [SRAMStrategy.runLoop]
  | cons t rest ih =>
    intro acc m hts
    have hone := runTest_reports_exactly_one s rng seedOf t fullTest m (hts t (by simp))
    have hrest := ih (acc && (s.runTest rng seedOf t fullTest m).1)
      (s.runTest rng seedOf t fullTest m).2.1
      (fun u hu => hts u (List.mem_cons_of_mem _ hu))
    simp only [SRAMStrategy.runLoop]
    constructor
    · simp [hone, hrest.1]
    · rw [hrest.2]
      simp [hone, Bool.and_assoc]

/-- C4: on a configured session (`sramSize ≠ 0`), `runAllTests` never
short-circuits: it reports one outcome for every test of the selected
repertoire — tests 1..6, or 1..7 when the random pattern is included —
in that order, whatever the individual outcomes are, and its aggregate
result is `true` exactly when every reported outcome is a pass. -/
theorem c4_run_catalogue (rng : Nat → Nat × Nat) (seedOf : Nat → Nat) (sz : Nat)
    (hsz : 0 < sz) (includeRandom fullTest : Bool) (m : Machine) :
    (reportedResults ((SRAMStrategy.setSize sz).runAllTests rng seedOf
        includeRandom fullTest m).2.2).map Prod.fst
      = List.range' 1 (if includeRandom then 7 else 6)
    ∧ (((SRAMStrategy.setSize sz).runAllTests rng seedOf includeRandom fullTest m).1 = true
        ↔ ∀ p ∈ reportedResults ((SRAMStrategy.setSize sz).runAllTests rng seedOf
            includeRandom fullTest m).2.2, p.2 = true) := by
  have hns : ¬ (SRAMStrategy.setSize sz).sramSize = 0 := by
    simp [SRAMStrategy.setSize]; omega
  have hmem : ∀ t ∈ List.range' 1 (if includeRandom then 7 else 6), 1 ≤ t ∧ t ≤ 7 := by
    intro t ht
    cases includeRandom <;> simp [List.mem_range'_1] at ht <;> omega
  have hrl := runLoop_spec (SRAMStrategy.setSize sz) rng seedOf fullTest
    (List.range' 1 (if includeRandom then 7 else 6)) true m hmem
  have heq : (SRAMStrategy.setSize sz).runAllTests rng seedOf includeRandom fullTest m
      = (SRAMStrategy.setSize sz).runLoop rng seedOf fullTest
          (List.range' 1 (if includeRandom then 7 else 6)) true m := by
    simp [SRAMStrategy.runAllTests, hns]
  rw [heq]
  refine ⟨hrl.1, ?_⟩
  rw [hrl.2]
  simp [List.all_eq_true]

/-- Witness for C4 at size 8 with the random test included and a
concrete generator. -/
theorem c4_run_catalogue_witness :
    (reportedResults ((SRAMStrategy.setSize 8).runAllTests (fun st => (st, st + 1)) id
        true false m0).2.2).map Prod.fst = List.range' 1 7 :=
  (c4_run_catalogue (fun st => (st, st + 1)) id 8 (by decide) true false m0).1

/-- The byte stream that `n` consecutive `(uint8_t)(random(256))` draws
produce from generator state `st`. -/
def rngBytes (rng : Nat → Nat × Nat) : Nat → Nat → List Nat
  | _, 0 => []
  | st, n + 1 => byte (rng st).1 :: rngBytes rng (rng st).2 n

@[simp] theorem rngBytes_length (rng : Nat → Nat × Nat) :
    ∀ (n st : Nat), (rngBytes rng st n).length = n := by
  intro n
  induction n with
  | zero => intro st; rfl
  | succ k ih => intro st; simp [rngBytes, ih]

@[simp] theorem setSize_maxAddress (sz : Nat) (h1 : 0 < sz) (h2 : sz < 65536) :
    (SRAMStrategy.setSize sz).maxAddress = sz - 1 := by
  simp [SRAMStrategy.setSize, sub16]
  omega

theorem or32_of_lt (x : Nat) (hx : x < 32) : x ||| 32 = x + 32 := by
  interval_cases x <;> decide

/-- For sizes of at most 8192 the bus address is the requested address
offset by `0x2000` (A13 forced high); for larger sizes it is the
address itself. -/
theorem effAddr_small (sz a : Nat) (h8 : sz ≤ 8192) (ha : a < 8192) :
    effAddr (SRAMStrategy.setSize sz) a = a + 8192 := by
  have hs : (SRAMStrategy.setSize sz).sramSize ≤ 8192 := h8
  have hshift : a >>> 8 = a / 256 := Nat.shiftRight_eq_div_pow a 8
  have hdiv : a / 256 < 32 := by omega
  have hb : byte (a >>> 8) = a / 256 := by
    rw [hshift]; exact Nat.mod_eq_of_lt (by omega)
  simp only [effAddr]
  rw [if_pos hs, show (1 <<< 5 : Nat) = 32 from rfl, hb, or32_of_lt (a / 256) hdiv]
  simp only [byte]
  omega

theorem effAddr_large (sz a : Nat) (h8 : 8192 < sz) (ha : a < 65536) :
    effAddr (SRAMStrategy.setSize sz) a = a := by
  have hs : ¬ (SRAMStrategy.setSize sz).sramSize ≤ 8192 := by
    simp [SRAMStrategy.setSize]; omega
  have hshift : a >>> 8 = a / 256 := Nat.shiftRight_eq_div_pow a 8
  have hb : byte (a >>> 8) = a / 256 := by
    rw [hshift]; exact Nat.mod_eq_of_lt (by omega)
  simp only [effAddr]
  rw [if_neg hs, hb]
  simp only [byte]
  omega

/-- Distinct addresses of the configured space select distinct bus
addresses. -/
theorem effAddr_inj (sz : Nat) (h1 : 0 < sz) (h2 : sz < 65536) (a b : Nat)
    (ha : a < sz) (hb : b < sz)
    (heq : effAddr (SRAMStrategy.setSize sz) a = effAddr (SRAMStrategy.setSize sz) b) :
    a = b := by
  by_cases h8 : sz ≤ 8192
  · rw [effAddr_small sz a h8 (by omega), effAddr_small sz b h8 (by omega)] at heq
    omega
  · rw [effAddr_large sz a (by omega) (by omega),
        effAddr_large sz b (by omega) (by omega)] at heq
    exact heq

theorem testedAddrs_nodup (s : SRAMStrategy) (fullTest : Bool) :
    (s.testedAddrs fullTest).Nodup :=
  (List.nodup_range _).filter _

theorem testedAddrs_lt (s : SRAMStrategy) (fullTest : Bool) (a : Nat)
    (ha : a ∈ s.testedAddrs fullTest) : a < s.maxAddress + 1 :=
  List.mem_range.1 (List.mem_filter.1 ha).1

theorem readData_randomWriteLoop (s : SRAMStrategy) (rng : Nat → Nat × Nat) :
    ∀ (as : List Nat) (m : Machine), readData (s.randomWriteLoop rng as m).2 = [] := by
  intro as
  induction as with
  | nil => intro m; rfl
  | cons a rest ih => intro m; simp only [SRAMStrategy.randomWriteLoop]; simp [ih]

theorem writtenData_randomVerifyLoop (s : SRAMStrategy) (rng : Nat → Nat × Nat) :
    ∀ (as : List Nat) (m : Machine),
      writtenData (s.randomVerifyLoop rng as m).2.2 = [] := by
  intro as
  induction as with
  | nil => intro m; rfl
  | cons a rest ih =>
    intro m
    simp only [SRAMStrategy.randomVerifyLoop]
    split <;> simp [ih]

theorem byte_byte (n : Nat) : byte (byte n) = byte n := by
  simp [byte]

/-- The write phase of the random pattern: its sequence of written data
bytes is exactly the byte stream drawn from the starting generator
state, independently of the memory or the fault model. -/
theorem randomWriteLoop_written (s : SRAMStrategy) (rng : Nat → Nat × Nat) :
    ∀ (as : List Nat) (m : Machine),
    (s.randomWriteLoop rng as m).1.amap = m.amap
    ∧ (s.randomWriteLoop rng as m).1.dmap = m.dmap
    ∧ writtenData (s.randomWriteLoop rng as m).2 = rngBytes rng m.rngState as.length := by
  intro as
  induction as with
  | nil => intro m; exact ⟨rfl, rfl, rfl⟩
  | cons a rest ih =>
    intro m
    have hih := ih (s.writeByte a (byte (rng m.rngState).1) { m with rngState := (rng m.rngState).2 }).1
    simp only [SRAMStrategy.randomWriteLoop]
    refine ⟨by simpa using hih.1, by simpa using hih.2.1, ?_⟩
    have h3 := hih.2.2
    rw [writeByte_rngState] at h3
    simp only [writtenData_append, writeByte_trace, writtenData_cons_dir,
      writtenData_cons_write, writtenData_nil, List.length_cons]
    rw [byte_byte, h3]
    rfl

/-- The write phase of the random pattern, on healthy address lines,
stores the drawn byte stream into the cells of the written addresses
(and touches no other cell). -/
theorem randomWriteLoop_mem (s : SRAMStrategy) (rng : Nat → Nat × Nat) :
    ∀ (as : List Nat) (m : Machine), m.amap = id →
    (∀ x, x ∉ as.map (effAddr s) → (s.randomWriteLoop rng as m).1.mem x = m.mem x)
    ∧ ((as.map (effAddr s)).Nodup →
        ∀ p ∈ as.zip (rngBytes rng m.rngState as.length),
          (s.randomWriteLoop rng as m).1.mem (effAddr s p.1) = p.2) := by
  intro as
  induction as with
  | nil => intro m _; exact ⟨fun x _ => rfl, fun _ p hp => absurd hp (by simp)⟩
  | cons a rest ih =>
    intro m ha
    have hm1a : (s.writeByte a (byte (rng m.rngState).1)
        { m with rngState := (rng m.rngState).2 }).1.amap = id := by simpa using ha
    have hih := ih (s.writeByte a (byte (rng m.rngState).1)
        { m with rngState := (rng m.rngState).2 }).1 hm1a
    have hm1mem : ∀ x, (s.writeByte a (byte (rng m.rngState).1)
        { m with rngState := (rng m.rngState).2 }).1.mem x
          = if x = effAddr s a then byte (rng m.rngState).1 else m.mem x := by
      intro x
      rw [writeByte_mem]
      simp [ha, byte]
    constructor
    · intro x hx
      have hxa : x ≠ effAddr s a := by
        intro hcon; exact hx (by simp [hcon])
      have hxrest : x ∉ rest.map (effAddr s) := by
        intro hcon; exact hx (by simp [hcon])
      simp only [SRAMStrategy.randomWriteLoop]
      rw [hih.1 x hxrest, hm1mem x, if_neg hxa]
    · intro hnd p hp
      have hnd2 : (rest.map (effAddr s)).Nodup := (List.nodup_cons.1 (by simpa using hnd)).2
      have hna : effAddr s a ∉ rest.map (effAddr s) :=
        (List.nodup_cons.1 (by simpa using hnd)).1
      simp only [SRAMStrategy.randomWriteLoop]
      rcases List.mem_cons.1 (by simpa [rngBytes] using hp) with hph | hpt
      · subst hph
        rw [hih.1 (effAddr s a) hna, hm1mem, if_pos rfl]
      · have := hih.2 hnd2 p (by simpa using hpt)
        simpa using this

/-- The verify phase of the random pattern passes, and reads back
exactly the drawn byte stream, whenever the device is healthy and every
written cell holds its drawn byte. -/
theorem randomVerifyLoop_ok (s : SRAMStrategy) (rng : Nat → Nat × Nat) :
    ∀ (as : List Nat) (m : Machine), m.amap = id → m.dmap = id →
    (∀ p ∈ as.zip (rngBytes rng m.rngState as.length), m.mem (effAddr s p.1) = p.2) →
    (s.randomVerifyLoop rng as m).1 = true
    ∧ readData (s.randomVerifyLoop rng as m).2.2 = rngBytes rng m.rngState as.length := by
  intro as
  induction as with
  | nil => intro m _ _ _; exact ⟨rfl, rfl⟩
  | cons a rest ih =>
    intro m ha hd hmem
    have hstep : ((a :: rest).zip (rngBytes rng m.rngState (a :: rest).length))
        = (a, byte (rng m.rngState).1)
            :: rest.zip (rngBytes rng (rng m.rngState).2 rest.length) := rfl
    rw [hstep] at hmem
    have hval : (s.readByte a { m with rngState := (rng m.rngState).2 }).1
        = byte (rng m.rngState).1 := by
      rw [readByte_val]
      simp only [ha, hd, id]
      exact hmem (a, byte (rng m.rngState).1) (List.mem_cons_self _ _)
    have hih := ih (s.readByte a { m with rngState := (rng m.rngState).2 }).2.1
      (by simpa using ha) (by simpa using hd)
      (by
        intro p hp
        rw [readByte_mem]
        exact hmem p (List.mem_cons_of_mem _ hp))
    have hval2 : m.dmap (m.mem (m.amap (effAddr s a))) = byte (rng m.rngState).1 := hval
    simp only [SRAMStrategy.randomVerifyLoop, hval, if_pos]
    refine ⟨hih.1, ?_⟩
    have h3 := hih.2
    rw [readByte_rngState] at h3
    simp only [readData_append, readByte_trace, readData_cons_dir, readData_cons_read,
      readData_nil, List.length_cons]
    rw [hval2, h3]
    rfl

theorem testedAddrs_effAddr_nodup (sz : Nat) (h1 : 0 < sz) (h2 : sz < 65536)
    (fullTest : Bool) :
    (((SRAMStrategy.setSize sz).testedAddrs fullTest).map
      (effAddr (SRAMStrategy.setSize sz))).Nodup := by
  refine List.Nodup.map_on ?_ (testedAddrs_nodup _ _)
  intro a ha b hb heq
  have hla := testedAddrs_lt _ _ a ha
  have hlb := testedAddrs_lt _ _ b hb
  rw [setSize_maxAddress sz h1 h2] at hla hlb
  exact effAddr_inj sz h1 h2 a b (by omega) (by omega) heq

/-- The byte sequence written by `testRandomPattern` is the stream drawn
from the seeded generator state, for any machine and fault model. -/
theorem testRandomPattern_written (s : SRAMStrategy) (rng : Nat → Nat × Nat)
    (seedOf : Nat → Nat) (fullTest : Bool) (m : Machine) :
    writtenData (s.testRandomPattern rng seedOf fullTest m).2.2
      = rngBytes rng (seedOf 12345) (s.testedAddrs fullTest).length := by
  have hw := randomWriteLoop_written s rng (s.testedAddrs fullTest)
    { m with rngState := seedOf 12345 }
  simp only [SRAMStrategy.testRandomPattern, writtenData_append]
  rw [hw.2.2, writtenData_randomVerifyLoop]
  simp

/-- On a healthy device whose bus addresses are pairwise distinct over
the tested addresses, `testRandomPattern` passes and its verify phase
reads back exactly the written stream. -/
theorem testRandomPattern_ok (s : SRAMStrategy) (rng : Nat → Nat × Nat)
    (seedOf : Nat → Nat) (fullTest : Bool) (m : Machine)
    (ha : m.amap = id) (hd : m.dmap = id)
    (hnd : ((s.testedAddrs fullTest).map (effAddr s)).Nodup) :
    (s.testRandomPattern rng seedOf fullTest m).1 = true
    ∧ readData (s.testRandomPattern rng seedOf fullTest m).2.2
      = rngBytes rng (seedOf 12345) (s.testedAddrs fullTest).length := by
  have hw := randomWriteLoop_written s rng (s.testedAddrs fullTest)
    { m with rngState := seedOf 12345 }
  have hmem := randomWriteLoop_mem s rng (s.testedAddrs fullTest)
    { m with rngState := seedOf 12345 } (by simpa using ha)
  have hva : ({ (s.randomWriteLoop rng (s.testedAddrs fullTest)
      { m with rngState := seedOf 12345 }).1 with rngState := seedOf 12345 }
        : Machine).amap = id := hw.1.trans ha
  have hvd : ({ (s.randomWriteLoop rng (s.testedAddrs fullTest)
      { m with rngState := seedOf 12345 }).1 with rngState := seedOf 12345 }
        : Machine).dmap = id := hw.2.1.trans hd
  have hv := randomVerifyLoop_ok s rng (s.testedAddrs fullTest)
    { (s.randomWriteLoop rng (s.testedAddrs fullTest)
        { m with rngState := seedOf 12345 }).1 with rngState := seedOf 12345 }
    hva hvd (fun p hp => hmem.2 hnd p hp)
  constructor
  · simp only [SRAMStrategy.testRandomPattern]
    exact hv.1
  · simp only [SRAMStrategy.testRandomPattern, readData_append]
    rw [readData_randomWriteLoop, hv.2]
    simp

/-- C8: the random pattern is exactly reproducible — for any
deterministic generator step function and seeding function, the verify
phase re-derives from the fixed seed 12345 the identical byte sequence
the write phase wrote; any two runs over the same address set write the
same sequence; and on a fault-free memory the pattern passes. -/
theorem c8_random_pattern_reproducible (rng : Nat → Nat × Nat) (seedOf : Nat → Nat)
    (sz : Nat) (h1 : 0 < sz) (h2 : sz < 65536) (fullTest : Bool) (m mAlt : Machine)
    (ha : m.amap = id) (hd : m.dmap = id) :
    writtenData ((SRAMStrategy.setSize sz).testRandomPattern rng seedOf fullTest m).2.2
      = rngBytes rng (seedOf 12345)
          ((SRAMStrategy.setSize sz).testedAddrs fullTest).length
    ∧ readData ((SRAMStrategy.setSize sz).testRandomPattern rng seedOf fullTest m).2.2
      = writtenData ((SRAMStrategy.setSize sz).testRandomPattern rng seedOf fullTest m).2.2
    ∧ ((SRAMStrategy.setSize sz).testRandomPattern rng seedOf fullTest m).1 = true
    ∧ writtenData ((SRAMStrategy.setSize sz).testRandomPattern rng seedOf fullTest mAlt).2.2
      = writtenData ((SRAMStrategy.setSize sz).testRandomPattern rng seedOf fullTest m).2.2 := by
  have hwr := testRandomPattern_written (SRAMStrategy.setSize sz) rng seedOf fullTest m
  have hok := testRandomPattern_ok (SRAMStrategy.setSize sz) rng seedOf fullTest m ha hd
    (testedAddrs_effAddr_nodup sz h1 h2 fullTest)
  exact ⟨hwr, hok.2.trans hwr.symm, hok.1,
    (testRandomPattern_written (SRAMStrategy.setSize sz) rng seedOf fullTest mAlt).trans
      hwr.symm⟩

/-- Witness for C8 at size 8 with a concrete generator. -/
theorem c8_random_pattern_reproducible_witness :
    ((SRAMStrategy.setSize 8).testRandomPattern (fun st => (st * 31 + 7, st + 1))
        (fun sd => sd) false m0).1 = true :=
  (c8_random_pattern_reproducible (fun st => (st * 31 + 7, st + 1)) (fun sd => sd) 8
    (by decide) (by decide) false m0 m0 rfl rfl).2.2.1

/-- The classic bit trick used by `shouldTestAddress`: `a & (a-1) == 0`
holds exactly for zero and the powers of two. -/
theorem land_pred_eq_zero_iff :
    ∀ a : Nat, (a &&& (a - 1) = 0 ↔ (a = 0 ∨ ∃ k, a = 2 ^ k)) := by
  intro a
  induction a using Nat.strong_induction_on with
  | _ a ih =>
    rcases Nat.eq_zero_or_pos a with rfl | hpos
    · simp
    rcases Nat.even_or_odd a with he | ho
    · obtain ⟨q, hq⟩ := he
      have hq1 : 1 ≤ q := by omega
      have hbf : Nat.bit false q = 2 * q := by simp [Nat.bit_val]
      have hbt : Nat.bit true (q - 1) = 2 * (q - 1) + 1 := by simp [Nat.bit_val]
      have h1 : a = Nat.bit false q := by rw [hbf]; omega
      have h2 : a - 1 = Nat.bit true (q - 1) := by rw [hbt]; omega
      have key : a &&& (a - 1) = 2 * (q &&& (q - 1)) := by
        rw [h2, h1, Nat.land_bit]
        simp [Nat.bit_val]
      have ihq := ih q (by omega)
      constructor
      · intro h0
        rw [key] at h0
        have hz : q &&& (q - 1) = 0 := by omega
        rcases ihq.1 hz with hq0 | ⟨k, hk⟩
        · omega
        · exact Or.inr ⟨k + 1, by rw [Nat.pow_succ]; omega⟩
      · rintro (h | ⟨k, hk⟩)
        · omega
        · rcases Nat.eq_zero_or_pos k with rfl | hk1
          · simp at hk; omega
          · have hpow : (2 : Nat) ^ k = 2 * 2 ^ (k - 1) := by
              conv_lhs => rw [show k = (k - 1) + 1 by omega]
              rw [Nat.pow_succ]; ring
            have hq2 : q = 2 ^ (k - 1) := by omega
            have hz : q &&& (q - 1) = 0 := ihq.2 (Or.inr ⟨k - 1, hq2⟩)
            rw [key, hz]
    · obtain ⟨q, hq⟩ := ho
      rcases Nat.eq_zero_or_pos q with rfl | hq1
      · have ha1 : a = 1 := by omega
        subst ha1
        exact ⟨fun _ => Or.inr ⟨0, rfl⟩, fun _ => by decide⟩
      · have hbt : Nat.bit true q = 2 * q + 1 := by simp [Nat.bit_val]
        have hbf : Nat.bit false q = 2 * q := by simp [Nat.bit_val]
        have h1 : a = Nat.bit true q := by rw [hbt]; omega
        have h2 : a - 1 = Nat.bit false q := by rw [hbf]; omega
        have key : a &&& (a - 1) = 2 * q := by
          rw [h2, h1, Nat.land_bit]
          simp [Nat.bit_val]
        constructor
        · intro h0; omega
        · rintro (h | ⟨k, hk⟩)
          · omega
          · rcases Nat.eq_zero_or_pos k with rfl | hk1
            · simp at hk; omega
            · have hpow : (2 : Nat) ^ k = 2 * 2 ^ (k - 1) := by
                conv_lhs => rw [show k = (k - 1) + 1 by omega]
                rw [Nat.pow_succ]; ring
              omega

/-- C3 (amended): for every configured size, QUICK (`Sampled`) coverage
tests an address exactly when it is among the first 512 addresses, the
last 512 addresses (`size - 512 ≤ addr`), an exact power of two, or a
multiple of 128; it is a deterministic function of the address alone,
is a subset of FULL (`Exhaustive`) coverage, which tests every address,
and is a *strict* subset whenever the size is at least 2048 (for sizes
up to 1024 the sampled set equals the exhaustive set). -/
theorem c3_sampled_coverage (sz : Nat) (h1 : 0 < sz) (h2 : sz < 65536)
    (addr : Nat) (haddr : addr < sz) :
    ((SRAMStrategy.setSize sz).shouldTestAddress addr false = true
      ↔ (addr < 512 ∨ sz - 512 ≤ addr ∨ (∃ k, addr = 2 ^ k) ∨ addr % 128 = 0))
    ∧ (SRAMStrategy.setSize sz).shouldTestAddress addr true = true
    ∧ ((SRAMStrategy.setSize sz).shouldTestAddress addr false = true →
        (SRAMStrategy.setSize sz).shouldTestAddress addr true = true)
    ∧ (2048 ≤ sz →
        ∃ b, b < sz ∧ (SRAMStrategy.setSize sz).shouldTestAddress b false = false) := by
  have hmax : (SRAMStrategy.setSize sz).maxAddress = sz - 1 := setSize_maxAddress sz h1 h2
  have hmod : ∀ x : Nat, (x &&& 127 = 0) ↔ x % 128 = 0 := by
    intro x
    have := Nat.and_pow_two_sub_one_eq_mod x 7
    norm_num at this
    rw [this]
  refine ⟨?_, rfl, fun _ => rfl, ?_⟩
  · simp only [SRAMStrategy.shouldTestAddress, hmax, Bool.false_eq_true, if_false]
    split_ifs with hc1 hc2 hc3 hc4
    · simp only [true_iff]
      exact Or.inl hc1
    · simp only [true_iff]
      refine Or.inr (Or.inl ?_)
      simp only [sub16] at hc2
      omega
    · simp only [true_iff]
      refine Or.inr (Or.inr (Or.inl ?_))
      have hsub : sub16 addr 1 = addr - 1 := by simp [sub16]; omega
      rw [hsub] at hc3
      rcases (land_pred_eq_zero_iff addr).1 hc3 with h0 | hp
      · omega
      · exact hp
    · simp only [true_iff]
      exact Or.inr (Or.inr (Or.inr ((hmod addr).1 hc4)))
    · simp only [false_iff]
      push_neg
      refine ⟨by omega, ?_, ?_, ?_⟩
      · simp only [sub16] at hc2
        omega
      · intro k hk
        apply hc3
        have hsub : sub16 addr 1 = addr - 1 := by simp [sub16]; omega
        rw [hsub]
        exact (land_pred_eq_zero_iff addr).2 (Or.inr ⟨k, hk⟩)
      · intro hm
        exact hc4 ((hmod addr).2 hm)
  · intro hsz
    refine ⟨513, by omega, ?_⟩
    simp only [SRAMStrategy.shouldTestAddress, hmax, Bool.false_eq_true, if_false]
    rw [if_neg (by omega)]
    rw [if_neg (show ¬ sub16 (sz - 1) 512 < 513 by simp only [sub16]; omega)]
    rw [if_neg (show ¬ (513 &&& sub16 513 1 = 0) by decide)]
    rw [if_neg (show ¬ ((513 : Nat) &&& 127 = 0) by decide)]

/-- Witness for C3 (amended) at size 32768, address 300 (tested: in the
first 512) — and the strict-subset part instantiated. -/
theorem c3_sampled_coverage_witness :
    ((SRAMStrategy.setSize 32768).shouldTestAddress 300 false = true
      ↔ (300 < 512 ∨ 32768 - 512 ≤ 300 ∨ (∃ k, (300 : Nat) = 2 ^ k) ∨ 300 % 128 = 0))
    ∧ (∃ b, b < 32768
        ∧ (SRAMStrategy.setSize 32768).shouldTestAddress b false = false) :=
  ⟨(c3_sampled_coverage 32768 (by decide) (by decide) 300 (by decide)).1,
   (c3_sampled_coverage 32768 (by decide) (by decide) 300 (by decide)).2.2.2 (by decide)⟩

set_option maxRecDepth 8000 in
/-- Counterexample to C3 as stated: at the configured (power-of-two)
size 1024 every address is QUICK-tested, so `Sampled` equals
`Exhaustive` and is not a strict subset of it. -/
theorem c3_strictness_counterexample :
    (∀ b, b < 1024 → (SRAMStrategy.setSize 1024).shouldTestAddress b false = true)
    ∧ ¬ (∃ b, b < 1024
        ∧ (SRAMStrategy.setSize 1024).shouldTestAddress b false = false) := by
  have hall : ∀ b, b < 1024 →
      (SRAMStrategy.setSize 1024).shouldTestAddress b false = true := by decide
  refine ⟨hall, ?_⟩
  rintro ⟨b, hb, hfalse⟩
  rw [hall b hb] at hfalse
  simp at hfalse
